import Mathlib

/-!
Verification of the generated Thrift struct codec in
`src/openr/py/openr/KnownKeys/ttypes.py` (structs `KnownKeys` and
`CurveKeyPair`).

The generated code drives an external protocol object through the calls
`readFieldBegin`, `readString`, `readMapBegin`, `peekMap`, `readMapEnd`,
`skip`, and the corresponding writers.  We embed the wire as a stream of
protocol-level tokens (one token per primitive value or structural
marker); the byte-level framing performed by the external protocol
library is below the interface the generated code observes.  Strings are
modelled by their decoded value (the UTF-8 encode/decode pair applied by
the generated code at the boundary is handled by the external
primitives and is inverse by contract).  Python dicts are modelled as
association lists with Python's update semantics (`dictInsert`) and
Python's order-insensitive dict equality (`dictEqv`).
-/

namespace OpenrKK

/-- Wire type tags, mirroring `thrift.Thrift.TType` (the tags the
generated code mentions plus the remaining value-bearing tags needed by
the generic `skip`). -/
inductive TType where
  | stop
  | bool
  | byte
  | double
  | i16
  | i32
  | i64
  | string
  | struct
  | map
  | set
  | list
  deriving DecidableEq

/-- Protocol-level tokens: one token per scalar value or structural
marker exchanged with the protocol object.  `fieldStop` is the STOP
marker written by `writeFieldStop`; `mapEnd` is the map terminator
consumed by `readMapEnd` and observed by `peekMap`. -/
inductive Tok where
  | fieldBegin (t : TType) (fid : Int)
  | fieldStop
  | mapBegin (kt vt : TType) (n : Int)
  | mapEnd
  | listBegin (et : TType) (n : Nat)
  | setBegin (et : TType) (n : Nat)
  | str (s : String)
  | bool (b : Bool)
  | byte (n : Int)
  | double (bits : Nat)
  | i16 (n : Int)
  | i32 (n : Int)
  | i64 (n : Int)
  deriving DecidableEq

/-- Errors a read can produce.  `missingRequiredField f st` models
`TProtocolException(MISSING_REQUIRED_FIELD, ...)` whose message names the
field `f` and the struct `st`; `malformed` models any protocol-level
decode failure; `outOfFuel` is the artefact of the fuel-indexed loops
and never occurs for sufficient fuel. -/
inductive Err where
  | malformed
  | outOfFuel
  | missingRequiredField (fieldName structName : String)
  deriving DecidableEq

/-- Reads a field header: `iprot.readFieldBegin()`.  A STOP marker is
reported as type `TType.stop` (the generated loop tests for it). -/
def readFieldBegin : List Tok → Except Err ((TType × Int) × List Tok)
  | Tok.fieldBegin t i :: s => .ok ((t, i), s)
  | Tok.fieldStop :: s => .ok ((TType.stop, 0), s)
  | _ => .error .malformed

/-- Reads a string scalar: `iprot.readString()`. -/
def readString : List Tok → Except Err (String × List Tok)
  | Tok.str a :: s => .ok (a, s)
  | _ => .error .malformed

/-- Reads a map header: `iprot.readMapBegin()`. -/
def readMapBegin : List Tok → Except Err ((TType × TType × Int) × List Tok)
  | Tok.mapBegin kt vt n :: s => .ok ((kt, vt, n), s)
  | _ => .error .malformed

/-- Consumes the map terminator: `iprot.readMapEnd()`. -/
def readMapEnd : List Tok → Except Err (List Tok)
  | Tok.mapEnd :: s => .ok s
  | _ => .error .malformed

/-- Peeks whether the map has a further element: `iprot.peekMap()`.
True exactly when the stream does not show the map end marker. -/
def peekMap : List Tok → Bool
  | [] => false
  | Tok.mapEnd :: _ => false
  | _ => true

/-- Jobs of the recursive part of the generic skip routine: skip one
value of a given type, skip the remaining fields of a struct, skip map
pairs until the peek signal. -/
inductive SkipJob where
  | one (t : TType)
  | fields
  | pairsPeek (kt vt : TType)

/-- Skips a counted run of map pairs, given the two element skippers. -/
def skipPairsGo (skipK skipV : List Tok → Except Err (List Tok)) :
    Nat → List Tok → Except Err (List Tok)
  | 0, s => .ok s
  | c+1, s =>
    match skipK s with
    | .ok s₁ =>
      (match skipV s₁ with
       | .ok s₂ => skipPairsGo skipK skipV c s₂
       | .error e => .error e)
    | .error e => .error e

/-- Skips a counted run of container elements, given the element
skipper. -/
def skipElemsGo (skip1 : List Tok → Except Err (List Tok)) :
    Nat → List Tok → Except Err (List Tok)
  | 0, s => .ok s
  | c+1, s =>
    match skip1 s with
    | .ok s₁ => skipElemsGo skip1 c s₁
    | .error e => .error e

/-- Modelled from the spec: the generic, schema-independent `skip`
operation of the external protocol base class (`iprot.skip(ftype)` is
library code, not part of this repository).  Per the spec it "must
correctly traverse nested containers and structs without interpreting
their content" and must support both map termination strategies.  Fuel
decreases on every recursive call that is not bounded by a declared
count; sufficient fuel is provided by the callers. -/
def skipGo : Nat → SkipJob → List Tok → Except Err (List Tok)
  | 0, _, _ => .error .outOfFuel
  | fuel+1, .one t, s =>
    match t with
    | .stop => .error .malformed
    | .bool =>
      (match s with | Tok.bool _ :: s' => .ok s' | _ => .error .malformed)
    | .byte =>
      (match s with | Tok.byte _ :: s' => .ok s' | _ => .error .malformed)
    | .double =>
      (match s with | Tok.double _ :: s' => .ok s' | _ => .error .malformed)
    | .i16 =>
      (match s with | Tok.i16 _ :: s' => .ok s' | _ => .error .malformed)
    | .i32 =>
      (match s with | Tok.i32 _ :: s' => .ok s' | _ => .error .malformed)
    | .i64 =>
      (match s with | Tok.i64 _ :: s' => .ok s' | _ => .error .malformed)
    | .string =>
      (match s with | Tok.str _ :: s' => .ok s' | _ => .error .malformed)
    | .struct => skipGo fuel .fields s
    | .map =>
      (match s with
       | Tok.mapBegin kt vt n :: s' =>
         (match (if 0 ≤ n then
                   skipPairsGo (skipGo fuel (.one kt)) (skipGo fuel (.one vt))
                     n.toNat s'
                 else skipGo fuel (.pairsPeek kt vt) s') with
          | .ok s₂ => readMapEnd s₂
          | .error e => .error e)
       | _ => .error .malformed)
    | .list =>
      (match s with
       | Tok.listBegin et n :: s' => skipElemsGo (skipGo fuel (.one et)) n s'
       | _ => .error .malformed)
    | .set =>
      (match s with
       | Tok.setBegin et n :: s' => skipElemsGo (skipGo fuel (.one et)) n s'
       | _ => .error .malformed)
  | fuel+1, .fields, s =>
    match readFieldBegin s with
    | .ok ((t, _fid), s') =>
      if t = .stop then .ok s'
      else
        match skipGo fuel (.one t) s' with
        | .ok s'' => skipGo fuel .fields s''
        | .error e => .error e
    | .error e => .error e
  | fuel+1, .pairsPeek kt vt, s =>
    if peekMap s then
      match skipGo fuel (.one kt) s with
      | .ok s₁ =>
        (match skipGo fuel (.one vt) s₁ with
         | .ok s₂ => skipGo fuel (.pairsPeek kt vt) s₂
         | .error e => .error e)
      | .error e => .error e
    else .ok s

/-- Python dict update `d[k] = v`: replaces the value in place when the
key is present, otherwise appends the new binding. -/
def dictInsert (d : List (String × String)) (k v : String) : List (String × String) :=
  if d.any (fun p => p.1 == k) then
    d.map (fun p => if p.1 == k then (k, v) else p)
  else d ++ [(k, v)]

/-- Python dict lookup `d.get(k)`. -/
def dictLookup : List (String × String) → String → Option String
  | [], _ => none
  | (k, v) :: d, key => if k == key then some v else dictLookup d key

/-- Python dict equality `d1 == d2`: the same keys mapped to the same
values, insertion order irrelevant. -/
def dictEqv (d₁ d₂ : List (String × String)) : Bool :=
  d₁.all (fun p => dictLookup d₂ p.1 == some p.2) &&
    d₂.all (fun p => dictLookup d₁ p.1 == some p.2)

/-- The struct `KnownKeys`: one field, `keys` (field id 1, wire type
MAP string→string, required).  `none` is Python's `None`, i.e. unset. -/
structure KnownKeys where
  keys : Option (List (String × String))
  deriving DecidableEq

/-- The struct `CurveKeyPair`: `privateKey` (field id 1, STRING,
optional) and `publicKey` (field id 2, STRING, optional). -/
structure CurveKeyPair where
  privateKey : Option String
  publicKey : Option String
  deriving DecidableEq

/-- Counted map read: the `for _i4 in six.moves.range(_size0)` branch of
`KnownKeys.read`, inserting each key/value pair into the dict. -/
def readMapCounted : Nat → List (String × String) → List Tok →
    Except Err (List (String × String) × List Tok)
  | 0, d, s => .ok (d, s)
  | n+1, d, s =>
    match readString s with
    | .ok (k, s₁) =>
      (match readString s₁ with
       | .ok (v, s₂) => readMapCounted n (dictInsert d k v) s₂
       | .error e => .error e)
    | .error e => .error e

/-- Peek-terminated map read: the `while iprot.peekMap()` branch of
`KnownKeys.read` taken for a negative declared size. -/
def readMapPeek : Nat → List (String × String) → List Tok →
    Except Err (List (String × String) × List Tok)
  | 0, _, _ => .error .outOfFuel
  | fuel+1, d, s =>
    if peekMap s then
      match readString s with
      | .ok (k, s₁) =>
        (match readString s₁ with
         | .ok (v, s₂) => readMapPeek fuel (dictInsert d k v) s₂
         | .error e => .error e)
      | .error e => .error e
    else .ok (d, s)

/-- Body of one iteration of the `KnownKeys.read` field loop (lines
60-78): known field id 1 of wire type MAP is decoded into a fresh dict
(`self.keys = {}` then filled); any other id, or a mismatched wire
type, is skipped. -/
def KnownKeys.readField (x : KnownKeys) (t : TType) (fid : Int) (fuel : Nat)
    (s : List Tok) : Except Err (KnownKeys × List Tok) :=
  if fid = 1 then
    if t = .map then
      match readMapBegin s with
      | .ok ((_kt, _vt, size), s₁) =>
        (match (if 0 ≤ size then readMapCounted size.toNat [] s₁
                else readMapPeek fuel [] s₁) with
         | .ok (d, s₂) =>
           (match readMapEnd s₂ with
            | .ok s₃ => .ok ({ keys := some d }, s₃)
            | .error e => .error e)
         | .error e => .error e)
      | .error e => .error e
    else
      match skipGo fuel (.one t) s with
      | .ok s' => .ok (x, s')
      | .error e => .error e
  else
    match skipGo fuel (.one t) s with
    | .ok s' => .ok (x, s')
    | .error e => .error e

/-- Body of one iteration of the `CurveKeyPair.read` field loop (lines
158-169): field id 1 / STRING sets `privateKey`, field id 2 / STRING
sets `publicKey`, anything else is skipped. -/
def CurveKeyPair.readField (x : CurveKeyPair) (t : TType) (fid : Int) (fuel : Nat)
    (s : List Tok) : Except Err (CurveKeyPair × List Tok) :=
  if fid = 1 then
    if t = .string then
      match readString s with
      | .ok (v, s') => .ok ({ x with privateKey := some v }, s')
      | .error e => .error e
    else
      match skipGo fuel (.one t) s with
      | .ok s' => .ok (x, s')
      | .error e => .error e
  else if fid = 2 then
    if t = .string then
      match readString s with
      | .ok (v, s') => .ok ({ x with publicKey := some v }, s')
      | .error e => .error e
    else
      match skipGo fuel (.one t) s with
      | .ok s' => .ok (x, s')
      | .error e => .error e
  else
    match skipGo fuel (.one t) s with
    | .ok s' => .ok (x, s')
    | .error e => .error e

/-- The shared field loop of the generated `read` methods:
`readStructBegin`, then `while True: readFieldBegin; if STOP: break;
<per-struct dispatch>; readFieldEnd`, then `readStructEnd`
(`readStructBegin`, `readFieldEnd` and `readStructEnd` consume nothing
at this interface). -/
def readStructGo {σ : Type}
    (step : σ → TType → Int → Nat → List Tok → Except Err (σ × List Tok)) :
    Nat → σ → List Tok → Except Err (σ × List Tok)
  | 0, _, _ => .error .outOfFuel
  | fuel+1, x, s =>
    match readFieldBegin s with
    | .ok ((t, fid), s') =>
      if t = .stop then .ok (x, s')
      else
        match step x t fid fuel s' with
        | .ok (x', s'') => readStructGo step fuel x' s''
        | .error e => .error e
    | .error e => .error e

/-- The `KnownKeys.checkRequired` method (lines 83-87): raises
MISSING_REQUIRED_FIELD naming field `keys` and struct `KnownKeys` when
the `keys` slot is unset. -/
def KnownKeys.checkRequired (x : KnownKeys) : Except Err Unit :=
  if x.keys = none then
    .error (.missingRequiredField "keys" "KnownKeys")
  else .ok ()

/-- The `CurveKeyPair.checkRequired` method (lines 174-175): no
required fields, always succeeds. -/
def CurveKeyPair.checkRequired (_x : CurveKeyPair) : Except Err Unit := .ok ()

/-- Generic-path `KnownKeys.read` (lines 55-81) at a given fuel: the
field loop followed by `checkRequired`. -/
def KnownKeys.readGenericFuel (fuel : Nat) (x : KnownKeys) (s : List Tok) :
    Except Err (KnownKeys × List Tok) :=
  match readStructGo KnownKeys.readField fuel x s with
  | .ok (x', s') =>
    (match x'.checkRequired with
     | .ok _ => .ok (x', s')
     | .error e => .error e)
  | .error e => .error e

/-- Generic-path `KnownKeys.read`, with fuel fixed from the input (the
loop consumes at least one token per iteration, so this fuel suffices
whenever the read can finish at all). -/
def KnownKeys.readGeneric (x : KnownKeys) (s : List Tok) :
    Except Err (KnownKeys × List Tok) :=
  KnownKeys.readGenericFuel (s.length + 1) x s

/-- Generic-path `CurveKeyPair.read` (lines 153-172) at a given fuel. -/
def CurveKeyPair.readGenericFuel (fuel : Nat) (x : CurveKeyPair) (s : List Tok) :
    Except Err (CurveKeyPair × List Tok) :=
  match readStructGo CurveKeyPair.readField fuel x s with
  | .ok (x', s') =>
    (match x'.checkRequired with
     | .ok _ => .ok (x', s')
     | .error e => .error e)
  | .error e => .error e

/-- Generic-path `CurveKeyPair.read`, with fuel fixed from the input. -/
def CurveKeyPair.readGeneric (x : CurveKeyPair) (s : List Tok) :
    Except Err (CurveKeyPair × List Tok) :=
  CurveKeyPair.readGenericFuel (s.length + 1) x s

/-- Tokens emitted for the entries of a dict by the `for kiter9,viter10
in self.keys.items()` loop of `KnownKeys.write`: key then value. -/
def writePairs : List (String × String) → List Tok
  | [] => []
  | (k, v) :: d => Tok.str k :: Tok.str v :: writePairs d

/-- Tokens emitted by generic-path `KnownKeys.write` (lines 96-106): the
`keys` field (header, map header with the dict's size, the pairs, map
end) when set, then the STOP marker. -/
def KnownKeys.writeTokens (x : KnownKeys) : List Tok :=
  (match x.keys with
   | none => []
   | some d =>
     [Tok.fieldBegin .map 1, Tok.mapBegin .string .string (d.length : Int)] ++
       writePairs d ++ [Tok.mapEnd]) ++ [Tok.fieldStop]

/-- Tokens emitted by generic-path `CurveKeyPair.write` (lines 184-194):
`privateKey` (id 1) when set, then `publicKey` (id 2) when set, then the
STOP marker. -/
def CurveKeyPair.writeTokens (x : CurveKeyPair) : List Tok :=
  (match x.privateKey with
   | none => []
   | some v => [Tok.fieldBegin .string 1, Tok.str v]) ++
  (match x.publicKey with
   | none => []
   | some v => [Tok.fieldBegin .string 2, Tok.str v]) ++
  [Tok.fieldStop]

/-- State-passing form of `KnownKeys.write`: the method only appends the
emitted tokens to the output sink; the returned pair makes the (absence
of) effect on the instance statable. -/
def KnownKeys.write (x : KnownKeys) (sink : List Tok) : KnownKeys × List Tok :=
  (x, sink ++ x.writeTokens)

/-- State-passing form of `CurveKeyPair.write`. -/
def CurveKeyPair.write (x : CurveKeyPair) (sink : List Tok) :
    CurveKeyPair × List Tok :=
  (x, sink ++ x.writeTokens)

/-- The `__eq__` of `KnownKeys` (lines 116-120): `__dict__` comparison,
i.e. the `keys` slots compared with Python dict equality (unset equal
only to unset). -/
def KnownKeys.eqv (a b : KnownKeys) : Bool :=
  match a.keys, b.keys with
  | none, none => true
  | some d₁, some d₂ => dictEqv d₁ d₂
  | _, _ => false

/-- The `__eq__` of `CurveKeyPair` (lines 207-211): both field slots
compared pairwise, unset counting as a value. -/
def CurveKeyPair.eqv (a b : CurveKeyPair) : Bool :=
  a.privateKey == b.privateKey && a.publicKey == b.publicKey

/-- Protocol kinds the dispatch distinguishes: the accelerated binary
protocol class, the accelerated compact protocol class, the accelerated
header protocol (carrying a protocol id), or anything else. -/
inductive ProtoKind where
  | binaryAccelerated
  | compactAccelerated
  | headerAccelerated (protocolId : Nat)
  | other
  deriving DecidableEq

/-- THeaderProtocol.T_BINARY_PROTOCOL. -/
def T_BINARY_PROTOCOL : Nat := 0

/-- THeaderProtocol.T_COMPACT_PROTOCOL. -/
def T_COMPACT_PROTOCOL : Nat := 2

/-- A protocol instance as the dispatch observes it: its kind and
whether its transport is a `CReadableTransport` (the direct-buffer
capability). -/
structure Protocol where
  kind : ProtoKind
  transCReadable : Bool
  deriving DecidableEq

/-- Process-wide facts the dispatch consults: `thrift_spec is not None`
and `fastproto is not None`. -/
structure Env where
  thriftSpecRegistered : Bool
  fastprotoAvailable : Bool
  deriving DecidableEq

/-- The first disjunct of the dispatch conditions:
`isinstance(prot, TBinaryProtocolAccelerated) or (isinstance(prot,
THeaderProtocolAccelerate) and prot.get_protocol_id() ==
T_BINARY_PROTOCOL)`. -/
def acceleratesBinary (p : Protocol) : Bool :=
  match p.kind with
  | .binaryAccelerated => true
  | .headerAccelerated pid => pid == T_BINARY_PROTOCOL
  | _ => false

/-- The compact counterpart of `acceleratesBinary`. -/
def acceleratesCompact (p : Protocol) : Bool :=
  match p.kind with
  | .compactAccelerated => true
  | .headerAccelerated pid => pid == T_COMPACT_PROTOCOL
  | _ => false

/-- The full condition of the first accelerated branch of `read` (line
47): acceleratable binary, transport readable by fastproto, spec
registered, fastproto importable. -/
def readUsesFastBinary (env : Env) (p : Protocol) : Bool :=
  acceleratesBinary p && p.transCReadable && env.thriftSpecRegistered &&
    env.fastprotoAvailable

/-- The condition of the second accelerated branch of `read` (line 51). -/
def readUsesFastCompact (env : Env) (p : Protocol) : Bool :=
  acceleratesCompact p && p.transCReadable && env.thriftSpecRegistered &&
    env.fastprotoAvailable

/-- The condition of the first accelerated branch of `write` (line 90);
the source checks no transport capability here. -/
def writeUsesFastBinary (env : Env) (p : Protocol) : Bool :=
  acceleratesBinary p && env.thriftSpecRegistered && env.fastprotoAvailable

/-- The condition of the second accelerated branch of `write` (line 93). -/
def writeUsesFastCompact (env : Env) (p : Protocol) : Bool :=
  acceleratesCompact p && env.thriftSpecRegistered && env.fastprotoAvailable

/-- Modelled from the spec: the external accelerated codec
(`fastproto.decode`, C code outside this repository), abstract apart
from its interface: it consumes stream input and produces a decoded
instance.  Required-field enforcement is NOT assumed: the generated
code performs it itself after the call. -/
structure FastProto where
  decodeBinaryKK : KnownKeys → List Tok → KnownKeys × List Tok
  decodeCompactKK : KnownKeys → List Tok → KnownKeys × List Tok

/-- The full `KnownKeys.read` (lines 46-81): accelerated-path dispatch,
then either fastproto decode followed by `checkRequired`, or the
generic field loop followed by `checkRequired`. -/
def KnownKeys.read (fp : FastProto) (env : Env) (p : Protocol)
    (x : KnownKeys) (s : List Tok) : Except Err (KnownKeys × List Tok) :=
  if readUsesFastBinary env p then
    match (fp.decodeBinaryKK x s).1.checkRequired with
    | .ok _ => .ok ((fp.decodeBinaryKK x s).1, (fp.decodeBinaryKK x s).2)
    | .error e => .error e
  else if readUsesFastCompact env p then
    match (fp.decodeCompactKK x s).1.checkRequired with
    | .ok _ => .ok ((fp.decodeCompactKK x s).1, (fp.decodeCompactKK x s).2)
    | .error e => .error e
  else KnownKeys.readGeneric x s

/-- Shapes of wellformed wire payloads: one value of a given wire type,
a run of struct field entries (without the final STOP marker), a
counted run of map pairs, a peek-terminated run of map pairs, a counted
run of container elements. -/
inductive WJob where
  | one (t : TType)
  | fields
  | pairsN (kt vt : TType) (n : Nat)
  | pairsPeek (kt vt : TType)
  | elems (et : TType) (n : Nat)

/-- Wellformed wire payloads, indexed by their shape.  A counted map
declares its own pair count; a peek-terminated map declares any
negative count. -/
inductive Wf : WJob → List Tok → Prop where
  | wbool : Wf (.one .bool) [Tok.bool b]
  | wbyte : Wf (.one .byte) [Tok.byte n]
  | wdouble : Wf (.one .double) [Tok.double n]
  | wi16 : Wf (.one .i16) [Tok.i16 n]
  | wi32 : Wf (.one .i32) [Tok.i32 n]
  | wi64 : Wf (.one .i64) [Tok.i64 n]
  | wstr : Wf (.one .string) [Tok.str a]
  | wstruct : Wf .fields enc → Wf (.one .struct) (enc ++ [Tok.fieldStop])
  | wmapN : Wf (.pairsN kt vt n) enc →
      Wf (.one .map) (Tok.mapBegin kt vt (n : Int) :: (enc ++ [Tok.mapEnd]))
  | wmapPeek : c < 0 → Wf (.pairsPeek kt vt) enc →
      Wf (.one .map) (Tok.mapBegin kt vt c :: (enc ++ [Tok.mapEnd]))
  | wlist : Wf (.elems et n) enc → Wf (.one .list) (Tok.listBegin et n :: enc)
  | wset : Wf (.elems et n) enc → Wf (.one .set) (Tok.setBegin et n :: enc)
  | wfieldsNil : Wf .fields []
  | wfieldsCons : t ≠ TType.stop → Wf (.one t) enc → Wf .fields rest →
      Wf .fields (Tok.fieldBegin t fid :: (enc ++ rest))
  | wpairsNil : Wf (.pairsN kt vt 0) []
  | wpairsCons : Wf (.one kt) ek → Wf (.one vt) ev → Wf (.pairsN kt vt n) rest →
      Wf (.pairsN kt vt (n + 1)) (ek ++ ev ++ rest)
  | wpeekNil : Wf (.pairsPeek kt vt) []
  | wpeekCons : Wf (.one kt) ek → Wf (.one vt) ev → Wf (.pairsPeek kt vt) rest →
      Wf (.pairsPeek kt vt) (ek ++ ev ++ rest)
  | welemsNil : Wf (.elems et 0) []
  | welemsCons : Wf (.one et) e → Wf (.elems et n) rest →
      Wf (.elems et (n + 1)) (e ++ rest)

/-- A wellformed single-value encoding is nonempty. -/
theorem wf_one_length_pos {t : TType} {enc : List Tok} (h : Wf (.one t) enc) :
    0 < enc.length := by
  cases h <;> simp

/-- A wellformed single-value encoding never starts with the map end
marker, so the peek-for-more signal sees a further element. -/
theorem wf_one_peek {t : TType} {enc : List Tok} (h : Wf (.one t) enc)
    (rest : List Tok) : peekMap (enc ++ rest) = true := by
  cases h <;> first
    | rfl
    | (rename_i hinner; cases hinner <;> rfl)

/-- Reading a string out of a wellformed non-string payload fails. -/
theorem wf_one_readString_err {t : TType} {enc : List Tok}
    (h : Wf (.one t) enc) (ht : t ≠ TType.string) (r : List Tok) :
    readString (enc ++ r) = .error .malformed := by
  cases h <;> first
    | rfl
    | exact absurd rfl ht
    | (rename_i hinner; cases hinner <;> rfl)

/-- A wellformed string payload is a single string token. -/
theorem wf_one_string {enc : List Tok} (h : Wf (.one TType.string) enc) :
    ∃ a, enc = [Tok.str a] := by
  cases h; exact ⟨_, rfl⟩

/-- Behaviour the generic skip routine must show on a wellformed
payload of each shape: consume exactly the payload.  The field-entry
shape additionally consumes the struct's STOP marker; the peek shape
stops just before the map end marker. -/
def SkipSpec : WJob → List Tok → Prop
  | .one t, enc => ∀ f rest, enc.length < f →
      skipGo f (.one t) (enc ++ rest) = .ok rest
  | .fields, enc => ∀ f rest, enc.length < f →
      skipGo f .fields (enc ++ Tok.fieldStop :: rest) = .ok rest
  | .pairsN kt vt n, enc => ∀ f rest, enc.length < f →
      skipPairsGo (skipGo f (.one kt)) (skipGo f (.one vt)) n (enc ++ rest) =
        .ok rest
  | .pairsPeek kt vt, enc => ∀ f rest, enc.length < f →
      skipGo f (.pairsPeek kt vt) (enc ++ Tok.mapEnd :: rest) =
        .ok (Tok.mapEnd :: rest)
  | .elems et n, enc => ∀ f rest, enc.length < f →
      skipElemsGo (skipGo f (.one et)) n (enc ++ rest) = .ok rest

/-- Skip correctness: on a wellformed payload the generic skip consumes
exactly the payload's tokens, given fuel above the payload's length. -/
theorem skip_wf : ∀ {j : WJob} {enc : List Tok}, Wf j enc → SkipSpec j enc := by
  intro j enc h
  induction h with
  | wbool => intro f rest hf; obtain ⟨g, rfl⟩ : ∃ g, f = g + 1 := ⟨f - 1, by omega⟩; rfl
  | wbyte => intro f rest hf; obtain ⟨g, rfl⟩ : ∃ g, f = g + 1 := ⟨f - 1, by omega⟩; rfl
  | wdouble => intro f rest hf; obtain ⟨g, rfl⟩ : ∃ g, f = g + 1 := ⟨f - 1, by omega⟩; rfl
  | wi16 => intro f rest hf; obtain ⟨g, rfl⟩ : ∃ g, f = g + 1 := ⟨f - 1, by omega⟩; rfl
  | wi32 => intro f rest hf; obtain ⟨g, rfl⟩ : ∃ g, f = g + 1 := ⟨f - 1, by omega⟩; rfl
  | wi64 => intro f rest hf; obtain ⟨g, rfl⟩ : ∃ g, f = g + 1 := ⟨f - 1, by omega⟩; rfl
  | wstr => intro f rest hf; obtain ⟨g, rfl⟩ : ∃ g, f = g + 1 := ⟨f - 1, by omega⟩; rfl
  | wstruct hfields ih =>
    rename_i body
    intro f rest hf
    obtain ⟨g, rfl⟩ : ∃ g, f = g + 1 := ⟨f - 1, by omega⟩
    simp only [List.length_append, List.length_cons, List.length_nil] at hf
    show skipGo g .fields _ = .ok rest
    rw [List.append_assoc, List.singleton_append]
    exact ih g rest (by omega)
  | wmapN hpairs ih =>
    rename_i kt vt n body
    intro f rest hf
    obtain ⟨g, rfl⟩ : ∃ g, f = g + 1 := ⟨f - 1, by omega⟩
    simp only [List.length_cons, List.length_append, List.length_nil] at hf
    rw [List.cons_append, List.append_assoc, List.singleton_append]
    have step : skipGo (g+1) (.one .map)
        (Tok.mapBegin kt vt (n : Int) :: (body ++ Tok.mapEnd :: rest)) =
        (match (if 0 ≤ (n : Int) then
                  skipPairsGo (skipGo g (.one kt)) (skipGo g (.one vt))
                    ((n : Int)).toNat (body ++ Tok.mapEnd :: rest)
                else skipGo g (.pairsPeek kt vt) (body ++ Tok.mapEnd :: rest)) with
         | .ok s₂ => readMapEnd s₂
         | .error e => .error e) := rfl
    rw [step, if_pos (Int.natCast_nonneg n), Int.toNat_natCast,
      ih g (Tok.mapEnd :: rest) (by omega)]
    rfl
  | wmapPeek hneg hpairs ih =>
    rename_i c kt vt body
    intro f rest hf
    obtain ⟨g, rfl⟩ : ∃ g, f = g + 1 := ⟨f - 1, by omega⟩
    simp only [List.length_cons, List.length_append, List.length_nil] at hf
    rw [List.cons_append, List.append_assoc, List.singleton_append]
    have step : skipGo (g+1) (.one .map)
        (Tok.mapBegin kt vt c :: (body ++ Tok.mapEnd :: rest)) =
        (match (if 0 ≤ c then
                  skipPairsGo (skipGo g (.one kt)) (skipGo g (.one vt))
                    c.toNat (body ++ Tok.mapEnd :: rest)
                else skipGo g (.pairsPeek kt vt) (body ++ Tok.mapEnd :: rest)) with
         | .ok s₂ => readMapEnd s₂
         | .error e => .error e) := rfl
    rw [step, if_neg (by omega), ih g rest (by omega)]
    rfl
  | wlist helems ih =>
    intro f rest hf
    obtain ⟨g, rfl⟩ : ∃ g, f = g + 1 := ⟨f - 1, by omega⟩
    simp only [List.length_cons] at hf
    show skipElemsGo (skipGo g (.one _)) _ _ = .ok rest
    exact ih g rest (by omega)
  | wset helems ih =>
    intro f rest hf
    obtain ⟨g, rfl⟩ : ∃ g, f = g + 1 := ⟨f - 1, by omega⟩
    simp only [List.length_cons] at hf
    show skipElemsGo (skipGo g (.one _)) _ _ = .ok rest
    exact ih g rest (by omega)
  | wfieldsNil =>
    intro f rest hf
    obtain ⟨g, rfl⟩ : ∃ g, f = g + 1 := ⟨f - 1, by omega⟩
    rfl
  | wfieldsCons ht hone hrest ihone ihrest =>
    rename_i t encv restf fid
    intro f rest hf
    obtain ⟨g, rfl⟩ : ∃ g, f = g + 1 := ⟨f - 1, by omega⟩
    simp only [List.length_cons, List.length_append] at hf
    rw [List.cons_append, List.append_assoc]
    have step : skipGo (g+1) .fields
        (Tok.fieldBegin t fid :: (encv ++ (restf ++ Tok.fieldStop :: rest))) =
        (if t = TType.stop then .ok (encv ++ (restf ++ Tok.fieldStop :: rest))
         else
           match skipGo g (.one t) (encv ++ (restf ++ Tok.fieldStop :: rest)) with
           | .ok s'' => skipGo g .fields s''
           | .error e => .error e) := rfl
    rw [step, if_neg ht, ihone g _ (by omega)]
    exact ihrest g rest (by omega)
  | wpairsNil =>
    intro f rest hf
    obtain ⟨g, rfl⟩ : ∃ g, f = g + 1 := ⟨f - 1, by omega⟩
    rfl
  | wpairsCons hk hv hrest ihk ihv ihrest =>
    intro f rest hf
    simp only [List.length_append] at hf
    have lk := wf_one_length_pos hk
    have lv := wf_one_length_pos hv
    rw [List.append_assoc, List.append_assoc]
    simp only [skipPairsGo, ihk f _ (by omega), ihv f _ (by omega)]
    exact ihrest f rest (by omega)
  | wpeekNil =>
    intro f rest hf
    obtain ⟨g, rfl⟩ : ∃ g, f = g + 1 := ⟨f - 1, by omega⟩
    rfl
  | wpeekCons hk hv hrest ihk ihv ihrest =>
    rename_i kt ek vt ev restp
    intro f rest hf
    obtain ⟨g, rfl⟩ : ∃ g, f = g + 1 := ⟨f - 1, by omega⟩
    simp only [List.length_append] at hf
    have lk := wf_one_length_pos hk
    have lv := wf_one_length_pos hv
    rw [List.append_assoc, List.append_assoc]
    have step : skipGo (g+1) (.pairsPeek kt vt)
        (ek ++ (ev ++ (restp ++ Tok.mapEnd :: rest))) =
        (if peekMap (ek ++ (ev ++ (restp ++ Tok.mapEnd :: rest))) then
           match skipGo g (.one kt) (ek ++ (ev ++ (restp ++ Tok.mapEnd :: rest))) with
           | .ok s₁ =>
             (match skipGo g (.one vt) s₁ with
              | .ok s₂ => skipGo g (.pairsPeek kt vt) s₂
              | .error e => .error e)
           | .error e => .error e
         else .ok (ek ++ (ev ++ (restp ++ Tok.mapEnd :: rest)))) := rfl
    rw [step, wf_one_peek hk, if_pos rfl]
    simp only [ihk g _ (by omega), ihv g _ (by omega)]
    exact ihrest g rest (by omega)
  | welemsNil =>
    intro f rest hf
    obtain ⟨g, rfl⟩ : ∃ g, f = g + 1 := ⟨f - 1, by omega⟩
    rfl
  | welemsCons he hrest ihe ihrest =>
    intro f rest hf
    simp only [List.length_append] at hf
    have le := wf_one_length_pos he
    rw [List.append_assoc]
    simp only [skipElemsGo, ihe f _ (by omega)]
    exact ihrest f rest (by omega)

/-- Pairs a stream-free read result with the rest of the stream:
successful local reads leave exactly the given rest. -/
def withRest {α : Type} (res : Except Err α) (rest : List Tok) :
    Except Err (α × List Tok) :=
  match res with
  | .ok a => .ok (a, rest)
  | .error e => .error e

/-- Reading a string off a string token succeeds. -/
theorem readString_str (a : String) (s : List Tok) :
    readString (Tok.str a :: s) = .ok (a, s) := rfl

/-- Behaviour of the two map-content readers of `KnownKeys.read` on a
wellformed run of pairs: the consumed tokens and the outcome are
determined by the run alone, not by what follows it. -/
def KKMapReadSpec : WJob → List Tok → Prop
  | .pairsN _ _ n, body => ∀ acc, ∃ res : Except Err (List (String × String)),
      ∀ rst, readMapCounted n acc (body ++ rst) = withRest res rst
  | .pairsPeek _ _, body => ∀ acc, ∃ res : Except Err (List (String × String)),
      ∀ f rst, body.length < f →
        readMapPeek f acc (body ++ Tok.mapEnd :: rst) =
          withRest res (Tok.mapEnd :: rst)
  | _, _ => True

/-- The counted and the peek map readers behave locally on wellformed
pair runs. -/
theorem kkMapRead_wf {j : WJob} {enc : List Tok} (h : Wf j enc) :
    KKMapReadSpec j enc := by
  induction h
  case wpairsNil => exact fun acc => ⟨.ok acc, fun rst => rfl⟩
  case wpairsCons kt ek vt ev n restp hk hv hrest ihk ihv ihrest =>
    intro acc
    by_cases hkt : kt = TType.string
    · subst hkt
      obtain ⟨k, rfl⟩ := wf_one_string hk
      by_cases hvt : vt = TType.string
      · subst hvt
        obtain ⟨v, rfl⟩ := wf_one_string hv
        obtain ⟨res, hres⟩ := ihrest (dictInsert acc k v)
        exact ⟨res, fun rst => hres rst⟩
      · refine ⟨.error .malformed, fun rst => ?_⟩
        have hv' := wf_one_readString_err hv hvt (restp ++ rst)
        simp only [List.cons_append, List.singleton_append, List.nil_append,
          List.append_assoc, readMapCounted, readString_str, hv', withRest]
    · refine ⟨.error .malformed, fun rst => ?_⟩
      have hk' := wf_one_readString_err hk hkt (ev ++ (restp ++ rst))
      simp only [List.append_assoc, readMapCounted, hk', withRest]
  case wpeekNil =>
    intro acc
    refine ⟨.ok acc, fun f rst hf => ?_⟩
    obtain ⟨g, rfl⟩ : ∃ g, f = g + 1 := ⟨f - 1, by omega⟩
    rfl
  case wpeekCons kt ek vt ev restp hk hv hrest ihk ihv ihrest =>
    intro acc
    by_cases hkt : kt = TType.string
    · subst hkt
      obtain ⟨k, rfl⟩ := wf_one_string hk
      by_cases hvt : vt = TType.string
      · subst hvt
        obtain ⟨v, rfl⟩ := wf_one_string hv
        obtain ⟨res, hres⟩ := ihrest (dictInsert acc k v)
        refine ⟨res, fun f rst hf => ?_⟩
        obtain ⟨g, rfl⟩ : ∃ g, f = g + 1 := ⟨f - 1, by omega⟩
        simp only [List.length_append, List.length_cons, List.length_nil] at hf
        exact hres g rst (by omega)
      · refine ⟨.error .malformed, fun f rst hf => ?_⟩
        obtain ⟨g, rfl⟩ : ∃ g, f = g + 1 := ⟨f - 1, by omega⟩
        have hv' := wf_one_readString_err hv hvt (restp ++ Tok.mapEnd :: rst)
        simp only [List.cons_append, List.singleton_append, List.nil_append,
          List.append_assoc, readMapPeek, peekMap, eq_self_iff_true, if_true,
          readString_str, hv', withRest]
    · refine ⟨.error .malformed, fun f rst hf => ?_⟩
      obtain ⟨g, rfl⟩ : ∃ g, f = g + 1 := ⟨f - 1, by omega⟩
      have hk' := wf_one_readString_err hk hkt (ev ++ (restp ++ Tok.mapEnd :: rst))
      have hpk := wf_one_peek hk (ev ++ (restp ++ Tok.mapEnd :: rst))
      simp only [List.append_assoc, readMapPeek, hpk, eq_self_iff_true, if_true,
        hk', withRest]
  all_goals trivial

/-- Local behaviour of `KnownKeys.readField` on a wellformed payload:
the outcome is a function of the instance, field header and payload
alone, for any sufficient fuel and any following stream. -/
theorem kkReadField_wf {t : TType} {enc : List Tok} (h : Wf (.one t) enc)
    (ht : t ≠ TType.stop) (x : KnownKeys) (fid : Int) :
    ∃ res : Except Err KnownKeys, ∀ f rst, enc.length < f →
      KnownKeys.readField x t fid f (enc ++ rst) = withRest res rst := by
  by_cases hfid : fid = 1
  · subst hfid
    by_cases htm : t = TType.map
    · subst htm
      cases h with
      | wmapN hpairs =>
        rename_i kt vt n body
        obtain ⟨res, hres⟩ := (kkMapRead_wf hpairs) []
        refine ⟨res.map (fun d => { keys := some d }), fun f rst hf => ?_⟩
        simp only [List.cons_append, List.append_assoc, List.singleton_append,
          List.nil_append]
        simp only [KnownKeys.readField, readMapBegin, eq_self_iff_true, if_true]
        rw [if_pos (Int.natCast_nonneg n), Int.toNat_natCast,
          hres (Tok.mapEnd :: rst)]
        cases res <;> rfl
      | wmapPeek hneg hpairs =>
        rename_i c kt vt body
        obtain ⟨res, hres⟩ := (kkMapRead_wf hpairs) []
        refine ⟨res.map (fun d => { keys := some d }), fun f rst hf => ?_⟩
        simp only [List.length_cons, List.length_append, List.length_nil] at hf
        simp only [List.cons_append, List.append_assoc, List.singleton_append,
          List.nil_append]
        simp only [KnownKeys.readField, readMapBegin, eq_self_iff_true, if_true]
        rw [if_neg (by omega : ¬ (0:Int) ≤ c), hres f rst (by omega)]
        cases res <;> rfl
    · refine ⟨.ok x, fun f rst hf => ?_⟩
      simp only [KnownKeys.readField, eq_self_iff_true, if_true, if_neg htm]
      rw [skip_wf h f rst hf]
      rfl
  · refine ⟨.ok x, fun f rst hf => ?_⟩
    simp only [KnownKeys.readField, if_neg hfid]
    rw [skip_wf h f rst hf]
    rfl

/-- A field entry with an id other than 1 is skipped by
`KnownKeys.readField`, leaving the instance unchanged. -/
theorem kkReadField_unknown {fid : Int} (hfid : fid ≠ 1) {t : TType}
    {enc : List Tok} (h : Wf (.one t) enc) :
    ∀ (x : KnownKeys) f rst, enc.length < f →
      KnownKeys.readField x t fid f (enc ++ rst) = .ok (x, rst) := by
  intro x f rst hf
  simp only [KnownKeys.readField, if_neg hfid]
  rw [skip_wf h f rst hf]

/-- A field entry with id 1 but a wire type other than MAP is skipped
by `KnownKeys.readField`, leaving the instance unchanged. -/
theorem kkReadField_mismatch {t : TType} {enc : List Tok}
    (htm : t ≠ TType.map) (h : Wf (.one t) enc) :
    ∀ (x : KnownKeys) f rst, enc.length < f →
      KnownKeys.readField x t 1 f (enc ++ rst) = .ok (x, rst) := by
  intro x f rst hf
  simp only [KnownKeys.readField, eq_self_iff_true, if_true, if_neg htm]
  rw [skip_wf h f rst hf]

/-- Local behaviour of `CurveKeyPair.readField` on a wellformed
payload. -/
theorem ckpReadField_wf {t : TType} {enc : List Tok} (h : Wf (.one t) enc)
    (ht : t ≠ TType.stop) (x : CurveKeyPair) (fid : Int) :
    ∃ res : Except Err CurveKeyPair, ∀ f rst, enc.length < f →
      CurveKeyPair.readField x t fid f (enc ++ rst) = withRest res rst := by
  by_cases hfid1 : fid = 1
  · subst hfid1
    by_cases hts : t = TType.string
    · subst hts
      obtain ⟨v, rfl⟩ := wf_one_string h
      exact ⟨.ok { x with privateKey := some v }, fun f rst hf => rfl⟩
    · refine ⟨.ok x, fun f rst hf => ?_⟩
      simp only [CurveKeyPair.readField, eq_self_iff_true, if_true, if_neg hts]
      rw [skip_wf h f rst hf]
      rfl
  · by_cases hfid2 : fid = 2
    · subst hfid2
      by_cases hts : t = TType.string
      · subst hts
        obtain ⟨v, rfl⟩ := wf_one_string h
        refine ⟨.ok { x with publicKey := some v }, fun f rst hf => ?_⟩
        simp only [CurveKeyPair.readField, if_neg hfid1, eq_self_iff_true,
          if_true, readString]
        rfl
      · refine ⟨.ok x, fun f rst hf => ?_⟩
        simp only [CurveKeyPair.readField, if_neg hfid1, eq_self_iff_true,
          if_true, if_neg hts]
        rw [skip_wf h f rst hf]
        rfl
    · refine ⟨.ok x, fun f rst hf => ?_⟩
      simp only [CurveKeyPair.readField, if_neg hfid1, if_neg hfid2]
      rw [skip_wf h f rst hf]
      rfl

/-- A field entry with an id other than 1 and 2 is skipped by
`CurveKeyPair.readField`, leaving the instance unchanged. -/
theorem ckpReadField_unknown {fid : Int} (h1 : fid ≠ 1) (h2 : fid ≠ 2)
    {t : TType} {enc : List Tok} (h : Wf (.one t) enc) :
    ∀ (x : CurveKeyPair) f rst, enc.length < f →
      CurveKeyPair.readField x t fid f (enc ++ rst) = .ok (x, rst) := by
  intro x f rst hf
  simp only [CurveKeyPair.readField, if_neg h1, if_neg h2]
  rw [skip_wf h f rst hf]

/-- A field entry with id 1 or 2 but a wire type other than STRING is
skipped by `CurveKeyPair.readField`, leaving the instance unchanged. -/
theorem ckpReadField_mismatch {t : TType} {enc : List Tok}
    (hts : t ≠ TType.string) (h : Wf (.one t) enc) {fid : Int}
    (hfid : fid = 1 ∨ fid = 2) :
    ∀ (x : CurveKeyPair) f rst, enc.length < f →
      CurveKeyPair.readField x t fid f (enc ++ rst) = .ok (x, rst) := by
  intro x f rst hf
  cases hfid with
  | inl h1 =>
    subst h1
    simp only [CurveKeyPair.readField, eq_self_iff_true, if_true, if_neg hts]
    rw [skip_wf h f rst hf]
  | inr h2 =>
    subst h2
    simp only [CurveKeyPair.readField, if_neg (by decide : ¬ (2:Int) = 1),
      eq_self_iff_true, if_true, if_neg hts]
    rw [skip_wf h f rst hf]

/-- A field entry on the wire: the header data and the payload
tokens. -/
structure FieldEntry where
  ftype : TType
  fid : Int
  payload : List Tok

/-- Tokens of a run of field entries. -/
def encodeFields : List FieldEntry → List Tok
  | [] => []
  | e :: l => Tok.fieldBegin e.ftype e.fid :: (e.payload ++ encodeFields l)

/-- Every entry of the run has a wellformed payload and a proper value
wire type. -/
def WfEntries (l : List FieldEntry) : Prop :=
  ∀ e ∈ l, Wf (.one e.ftype) e.payload ∧ e.ftype ≠ TType.stop

/-- The generic field loop on a wellformed run of entries followed by
the STOP marker: the decoded outcome is a function of the starting
instance and the entries, for any sufficient fuel and any following
stream. -/
theorem loop_wf {σ : Type}
    (step : σ → TType → Int → Nat → List Tok → Except Err (σ × List Tok))
    (hstep : ∀ (x : σ) {t : TType} {enc : List Tok} (fid : Int),
      Wf (.one t) enc → t ≠ TType.stop →
      ∃ res : Except Err σ, ∀ f rst, enc.length < f →
        step x t fid f (enc ++ rst) = withRest res rst) :
    ∀ (l : List FieldEntry), WfEntries l → ∀ (x : σ),
      ∃ res : Except Err σ, ∀ f rest, (encodeFields l).length < f →
        readStructGo step f x (encodeFields l ++ Tok.fieldStop :: rest) =
          withRest res rest := by
  intro l
  induction l with
  | nil =>
    intro _ x
    refine ⟨.ok x, fun f rest hf => ?_⟩
    obtain ⟨g, rfl⟩ : ∃ g, f = g + 1 := ⟨f - 1, by omega⟩
    rfl
  | cons e l ih =>
    intro hl x
    obtain ⟨hwf, hne⟩ := hl e (List.mem_cons_self e l)
    obtain ⟨res₁, hres₁⟩ := hstep x e.fid hwf hne
    cases res₁ with
    | error e0 =>
      refine ⟨.error e0, fun f rest hf => ?_⟩
      obtain ⟨g, rfl⟩ : ∃ g, f = g + 1 := ⟨f - 1, by omega⟩
      simp only [encodeFields, List.length_cons, List.length_append] at hf
      simp only [encodeFields, List.cons_append, List.append_assoc]
      simp only [readStructGo, readFieldBegin]
      rw [if_neg hne, hres₁ g _ (by omega)]
      rfl
    | ok x₁ =>
      obtain ⟨res, hres⟩ := ih (fun e' he' => hl e' (List.mem_cons_of_mem _ he')) x₁
      refine ⟨res, fun f rest hf => ?_⟩
      obtain ⟨g, rfl⟩ : ∃ g, f = g + 1 := ⟨f - 1, by omega⟩
      simp only [encodeFields, List.length_cons, List.length_append] at hf
      simp only [encodeFields, List.cons_append, List.append_assoc]
      simp only [readStructGo, readFieldBegin]
      rw [if_neg hne, hres₁ g _ (by omega)]
      exact hres g rest (by omega)

/-- The generic field loop on a run of entries it skips entirely
returns the instance unchanged. -/
theorem loop_all_skipped {σ : Type}
    (step : σ → TType → Int → Nat → List Tok → Except Err (σ × List Tok)) :
    ∀ (l : List FieldEntry),
      (∀ e ∈ l, e.ftype ≠ TType.stop ∧
        ∀ (x : σ) f rst, e.payload.length < f →
          step x e.ftype e.fid f (e.payload ++ rst) = .ok (x, rst)) →
      ∀ (x : σ) f rest, (encodeFields l).length < f →
        readStructGo step f x (encodeFields l ++ Tok.fieldStop :: rest) =
          .ok (x, rest) := by
  intro l
  induction l with
  | nil =>
    intro _ x f rest hf
    obtain ⟨g, rfl⟩ : ∃ g, f = g + 1 := ⟨f - 1, by omega⟩
    rfl
  | cons e l ih =>
    intro hl x f rest hf
    obtain ⟨hne, hsk⟩ := hl e (List.mem_cons_self e l)
    obtain ⟨g, rfl⟩ : ∃ g, f = g + 1 := ⟨f - 1, by omega⟩
    simp only [encodeFields, List.length_cons, List.length_append] at hf
    simp only [encodeFields, List.cons_append, List.append_assoc]
    simp only [readStructGo, readFieldBegin]
    rw [if_neg hne, hsk x g _ (by omega)]
    exact ih (fun e' he' => hl e' (List.mem_cons_of_mem _ he')) x g rest (by omega)

/-- Inserting one extra entry the step skips, anywhere in a wellformed
run of entries, does not change the loop's result. -/
theorem loop_insert_skipped {σ : Type}
    (step : σ → TType → Int → Nat → List Tok → Except Err (σ × List Tok))
    (hstep : ∀ (x : σ) {t : TType} {enc : List Tok} (fid : Int),
      Wf (.one t) enc → t ≠ TType.stop →
      ∃ res : Except Err σ, ∀ f rst, enc.length < f →
        step x t fid f (enc ++ rst) = withRest res rst)
    {t₀ : TType} {fid₀ : Int} {enc₀ : List Tok} (ht₀ : t₀ ≠ TType.stop)
    (hskip : ∀ (x : σ) f rst, enc₀.length < f →
      step x t₀ fid₀ f (enc₀ ++ rst) = .ok (x, rst)) :
    ∀ (l₁ l₂ : List FieldEntry), WfEntries l₁ → WfEntries l₂ →
    ∀ (x : σ) (rest : List Tok) (f₁ f₂ : Nat),
      (encodeFields l₁).length + (enc₀.length + 1) + (encodeFields l₂).length < f₁ →
      (encodeFields l₁).length + (encodeFields l₂).length < f₂ →
      readStructGo step f₁ x
        (encodeFields l₁ ++ Tok.fieldBegin t₀ fid₀ ::
          (enc₀ ++ (encodeFields l₂ ++ Tok.fieldStop :: rest))) =
      readStructGo step f₂ x
        (encodeFields l₁ ++ (encodeFields l₂ ++ Tok.fieldStop :: rest)) := by
  intro l₁
  induction l₁ with
  | nil =>
    intro l₂ _ hl₂ x rest f₁ f₂ h₁ h₂
    obtain ⟨g, rfl⟩ : ∃ g, f₁ = g + 1 := ⟨f₁ - 1, by omega⟩
    simp only [encodeFields, List.length_nil, List.nil_append] at h₁ h₂ ⊢
    simp only [readStructGo, readFieldBegin]
    rw [if_neg ht₀, hskip x g _ (by omega)]
    obtain ⟨res, hres⟩ := loop_wf step hstep l₂ hl₂ x
    show readStructGo step g x (encodeFields l₂ ++ Tok.fieldStop :: rest) =
      readStructGo step f₂ x (encodeFields l₂ ++ Tok.fieldStop :: rest)
    rw [hres g rest (by omega), hres f₂ rest (by omega)]
  | cons e l₁ ih =>
    intro l₂ hl₁ hl₂ x rest f₁ f₂ h₁ h₂
    obtain ⟨hwf, hne⟩ := hl₁ e (List.mem_cons_self e l₁)
    obtain ⟨res₁, hres₁⟩ := hstep x e.fid hwf hne
    obtain ⟨g₁, rfl⟩ : ∃ g, f₁ = g + 1 := ⟨f₁ - 1, by omega⟩
    obtain ⟨g₂, rfl⟩ : ∃ g, f₂ = g + 1 := ⟨f₂ - 1, by omega⟩
    simp only [encodeFields, List.length_cons, List.length_append] at h₁ h₂
    simp only [encodeFields, List.cons_append, List.append_assoc]
    simp only [readStructGo, readFieldBegin]
    rw [if_neg hne, if_neg hne, hres₁ g₁ _ (by omega), hres₁ g₂ _ (by omega)]
    cases res₁ with
    | error e0 => rfl
    | ok x₁ =>
      show readStructGo step g₁ x₁ _ = readStructGo step g₂ x₁ _
      exact ih l₂ (fun e' he' => hl₁ e' (List.mem_cons_of_mem _ he')) hl₂ x₁
        rest g₁ g₂ (by omega) (by omega)

/-- Python dict update appends when the key is absent. -/
theorem dictInsert_append {d : List (String × String)} {k : String}
    (h : ∀ p ∈ d, p.1 ≠ k) (v : String) :
    dictInsert d k v = d ++ [(k, v)] := by
  have hany : d.any (fun p => p.1 == k) = false := by
    rw [List.any_eq_false]
    intro p hp
    simpa using h p hp
  rw [dictInsert, hany]
  rfl

/-- Result of reading a map's pairs into an initially empty dict. -/
def dfold (kvs : List (String × String)) : List (String × String) :=
  kvs.foldl (fun a p => dictInsert a p.1 p.2) []

/-- Folding dict updates over pairs with fresh, pairwise distinct keys
appends them in order. -/
theorem foldl_dictInsert_append :
    ∀ (kvs acc : List (String × String)), (kvs.map Prod.fst).Nodup →
      (∀ p ∈ acc, ∀ q ∈ kvs, p.1 ≠ q.1) →
      kvs.foldl (fun a p => dictInsert a p.1 p.2) acc = acc ++ kvs := by
  intro kvs
  induction kvs with
  | nil => intro acc _ _; simp
  | cons q kvs ih =>
    intro acc hnd hdisj
    simp only [List.map_cons, List.nodup_cons, List.mem_map] at hnd
    simp only [List.foldl_cons]
    rw [dictInsert_append (fun p hp => hdisj p hp q (List.mem_cons_self q kvs))]
    rw [ih (acc ++ [q]) hnd.2 ?_]
    · simp
    · intro p hp r hr
      rcases List.mem_append.mp hp with hpa | hpq
      · exact hdisj p hpa r (List.mem_cons_of_mem _ hr)
      · have : p = q := by simpa using hpq
        subst this
        intro hpr
        exact hnd.1 ⟨r, hr, hpr.symm⟩

/-- A dict with pairwise distinct keys decodes back to itself. -/
theorem dfold_eq_self {kvs : List (String × String)}
    (h : (kvs.map Prod.fst).Nodup) : dfold kvs = kvs := by
  have := foldl_dictInsert_append kvs [] h (by intro p hp; cases hp)
  simpa [dfold] using this

/-- Token count of the emitted pairs. -/
theorem writePairs_length (d : List (String × String)) :
    (writePairs d).length = 2 * d.length := by
  induction d with
  | nil => rfl
  | cons p d ih =>
    obtain ⟨k, v⟩ := p
    simp only [writePairs, List.length_cons, ih]
    omega

/-- The counted map reader consumes exactly the emitted pairs and folds
them into the dict. -/
theorem readMapCounted_writePairs :
    ∀ (kvs acc : List (String × String)) (rst : List Tok),
      readMapCounted kvs.length acc (writePairs kvs ++ rst) =
        .ok (kvs.foldl (fun a p => dictInsert a p.1 p.2) acc, rst) := by
  intro kvs
  induction kvs with
  | nil => intro acc rst; rfl
  | cons p kvs ih =>
    intro acc rst
    obtain ⟨k, v⟩ := p
    simp only [writePairs, List.cons_append, List.length_cons, readMapCounted,
      readString_str, List.foldl_cons]
    exact ih (dictInsert acc k v) rst

/-- The peek map reader consumes exactly the emitted pairs up to the map
end marker and folds them into the dict. -/
theorem readMapPeek_writePairs :
    ∀ (kvs acc : List (String × String)) (f : Nat) (rst : List Tok),
      kvs.length < f →
      readMapPeek f acc (writePairs kvs ++ Tok.mapEnd :: rst) =
        .ok (kvs.foldl (fun a p => dictInsert a p.1 p.2) acc, Tok.mapEnd :: rst) := by
  intro kvs
  induction kvs with
  | nil =>
    intro acc f rst hf
    obtain ⟨g, rfl⟩ : ∃ g, f = g + 1 := ⟨f - 1, by omega⟩
    rfl
  | cons p kvs ih =>
    intro acc f rst hf
    obtain ⟨k, v⟩ := p
    obtain ⟨g, rfl⟩ : ∃ g, f = g + 1 := ⟨f - 1, by omega⟩
    simp only [List.length_cons] at hf
    simp only [writePairs, List.cons_append, readMapPeek, peekMap,
      eq_self_iff_true, if_true, readString_str, List.foldl_cons]
    exact ih (dictInsert acc k v) g rst (by omega)

/-- One iteration of the generic field loop on a non-STOP header. -/
theorem loop_step {σ : Type}
    (step : σ → TType → Int → Nat → List Tok → Except Err (σ × List Tok))
    (g : Nat) (x : σ) {t : TType} (fid : Int) (ht : t ≠ TType.stop)
    (s : List Tok) :
    readStructGo step (g+1) x (Tok.fieldBegin t fid :: s) =
      (match step x t fid g s with
       | .ok (x', s'') => readStructGo step g x' s''
       | .error e => .error e) := by
  simp only [readStructGo, readFieldBegin]
  rw [if_neg ht]

/-- The generic field loop stops at the STOP marker. -/
theorem loop_stop {σ : Type}
    (step : σ → TType → Int → Nat → List Tok → Except Err (σ × List Tok))
    (g : Nat) (x : σ) (rest : List Tok) :
    readStructGo step (g+1) x (Tok.fieldStop :: rest) = .ok (x, rest) := rfl

/-- `KnownKeys.readField` decodes a counted string map for field id 1
into a fresh dict. -/
theorem kkReadField_mapCounted (kvs : List (String × String)) (x : KnownKeys)
    (g : Nat) (tail : List Tok) :
    KnownKeys.readField x TType.map 1 g
      (Tok.mapBegin .string .string (kvs.length : Int) ::
        (writePairs kvs ++ Tok.mapEnd :: tail)) =
      .ok ({ keys := some (dfold kvs) }, tail) := by
  simp only [KnownKeys.readField, readMapBegin, eq_self_iff_true, if_true]
  rw [if_pos (Int.natCast_nonneg _), Int.toNat_natCast, readMapCounted_writePairs]
  rfl

/-- `KnownKeys.readField` decodes a negative-count string map for field
id 1 by peeking, into the same fresh dict. -/
theorem kkReadField_mapPeek (kvs : List (String × String)) (c : Int)
    (hc : c < 0) (x : KnownKeys) (g : Nat) (tail : List Tok)
    (hg : kvs.length < g) :
    KnownKeys.readField x TType.map 1 g
      (Tok.mapBegin .string .string c :: (writePairs kvs ++ Tok.mapEnd :: tail)) =
      .ok ({ keys := some (dfold kvs) }, tail) := by
  simp only [KnownKeys.readField, readMapBegin, eq_self_iff_true, if_true]
  rw [if_neg (by omega : ¬ (0:Int) ≤ c), readMapPeek_writePairs kvs [] g tail hg]
  rfl

/-- Generic-path `KnownKeys.read` on a stream holding field 1 as a
counted string map: the decoded instance holds exactly the folded
dict. -/
theorem kkReadGeneric_mapCounted (kvs : List (String × String))
    (x : KnownKeys) (rest : List Tok) :
    KnownKeys.readGeneric x
      (Tok.fieldBegin .map 1 ::
        (Tok.mapBegin .string .string (kvs.length : Int) ::
          (writePairs kvs ++ Tok.mapEnd :: Tok.fieldStop :: rest))) =
      .ok ({ keys := some (dfold kvs) }, rest) := by
  simp only [KnownKeys.readGeneric, KnownKeys.readGenericFuel, List.length_cons]
  rw [loop_step KnownKeys.readField _ x 1 (by decide), kkReadField_mapCounted]
  rfl

/-- The field loop decodes a negative-count map entry for field id 1
followed by the STOP marker, for any sufficient fuel. -/
theorem kkLoop_mapPeek (kvs : List (String × String)) (c : Int)
    (hc : c < 0) (x : KnownKeys) (rest : List Tok) (g : Nat)
    (hg : kvs.length + 2 ≤ g) :
    readStructGo KnownKeys.readField (g+1) x
      (Tok.fieldBegin .map 1 ::
        (Tok.mapBegin .string .string c ::
          (writePairs kvs ++ Tok.mapEnd :: Tok.fieldStop :: rest))) =
      .ok ({ keys := some (dfold kvs) }, rest) := by
  obtain ⟨g', rfl⟩ : ∃ h, g = h + 1 := ⟨g - 1, by omega⟩
  rw [loop_step KnownKeys.readField _ x 1 (by decide),
    kkReadField_mapPeek kvs c hc x (g'+1) _ (by omega)]
  rfl

/-- Generic-path `KnownKeys.read` on the same pairs with a negative
declared count: the same decoded instance. -/
theorem kkReadGeneric_mapPeek (kvs : List (String × String)) (c : Int)
    (hc : c < 0) (x : KnownKeys) (rest : List Tok) :
    KnownKeys.readGeneric x
      (Tok.fieldBegin .map 1 ::
        (Tok.mapBegin .string .string c ::
          (writePairs kvs ++ Tok.mapEnd :: Tok.fieldStop :: rest))) =
      .ok ({ keys := some (dfold kvs) }, rest) := by
  have h := kkLoop_mapPeek kvs c hc x rest
    ((Tok.fieldBegin .map 1 ::
      (Tok.mapBegin .string .string c ::
        (writePairs kvs ++ Tok.mapEnd :: Tok.fieldStop :: rest))).length)
    (by simp [List.length_append, List.length_cons, writePairs_length]; omega)
  simp only [KnownKeys.readGeneric, KnownKeys.readGenericFuel]
  rw [h]
  rfl

/-- Generic-path `KnownKeys.read` on a wellformed stream with no entry
for field id 1 fails required-field validation, naming field `keys` and
struct `KnownKeys`. -/
theorem kkReadGeneric_noField1 (l : List FieldEntry) (hl : WfEntries l)
    (hfid : ∀ e ∈ l, e.fid ≠ 1) (rest : List Tok) :
    KnownKeys.readGeneric { keys := none }
      (encodeFields l ++ Tok.fieldStop :: rest) =
      .error (.missingRequiredField "keys" "KnownKeys") := by
  simp only [KnownKeys.readGeneric, KnownKeys.readGenericFuel]
  rw [loop_all_skipped KnownKeys.readField l
    (fun e he => ⟨(hl e he).2,
      fun x f rst hf => kkReadField_unknown (hfid e he) (hl e he).1 x f rst hf⟩)
    _ _ rest (by simp [List.length_append]; omega)]
  rfl

/-- The local-behaviour lemma for `KnownKeys.readField`, shaped as the
step hypothesis of the generic loop lemmas. -/
theorem kkStepWf : ∀ (x : KnownKeys) {t : TType} {enc : List Tok} (fid : Int),
    Wf (.one t) enc → t ≠ TType.stop →
    ∃ res : Except Err KnownKeys, ∀ f rst, enc.length < f →
      KnownKeys.readField x t fid f (enc ++ rst) = withRest res rst := by
  intro x t enc fid hwf hne
  exact kkReadField_wf hwf hne x fid

/-- The local-behaviour lemma for `CurveKeyPair.readField`, shaped as
the step hypothesis of the generic loop lemmas. -/
theorem ckpStepWf : ∀ (x : CurveKeyPair) {t : TType} {enc : List Tok} (fid : Int),
    Wf (.one t) enc → t ≠ TType.stop →
    ∃ res : Except Err CurveKeyPair, ∀ f rst, enc.length < f →
      CurveKeyPair.readField x t fid f (enc ++ rst) = withRest res rst := by
  intro x t enc fid hwf hne
  exact ckpReadField_wf hwf hne x fid

/-- Inserting one skipped (unknown-id) wellformed entry anywhere into a
wellformed `KnownKeys` stream leaves the full generic read's result
unchanged. -/
theorem kkReadGeneric_insert (l₁ l₂ : List FieldEntry)
    (hl₁ : WfEntries l₁) (hl₂ : WfEntries l₂) {t : TType} {fid : Int}
    {enc : List Tok} (hwf : Wf (.one t) enc) (ht : t ≠ TType.stop)
    (hfid : fid ≠ 1) (x : KnownKeys) (rest : List Tok) :
    KnownKeys.readGeneric x
      (encodeFields l₁ ++ Tok.fieldBegin t fid ::
        (enc ++ (encodeFields l₂ ++ Tok.fieldStop :: rest))) =
    KnownKeys.readGeneric x
      (encodeFields l₁ ++ (encodeFields l₂ ++ Tok.fieldStop :: rest)) := by
  have h := loop_insert_skipped KnownKeys.readField kkStepWf ht
    (fun x f rst hf => kkReadField_unknown hfid hwf x f rst hf)
    l₁ l₂ hl₁ hl₂ x rest
    ((encodeFields l₁ ++ Tok.fieldBegin t fid ::
      (enc ++ (encodeFields l₂ ++ Tok.fieldStop :: rest))).length + 1)
    ((encodeFields l₁ ++ (encodeFields l₂ ++ Tok.fieldStop :: rest)).length + 1)
    (by simp [List.length_append, List.length_cons]; omega)
    (by simp [List.length_append, List.length_cons]; omega)
  simp only [KnownKeys.readGeneric, KnownKeys.readGenericFuel]
  rw [h]

/-- Inserting one skipped (unknown-id) wellformed entry anywhere into a
wellformed `CurveKeyPair` stream leaves the full generic read's result
unchanged. -/
theorem ckpReadGeneric_insert (l₁ l₂ : List FieldEntry)
    (hl₁ : WfEntries l₁) (hl₂ : WfEntries l₂) {t : TType} {fid : Int}
    {enc : List Tok} (hwf : Wf (.one t) enc) (ht : t ≠ TType.stop)
    (hfid1 : fid ≠ 1) (hfid2 : fid ≠ 2) (x : CurveKeyPair) (rest : List Tok) :
    CurveKeyPair.readGeneric x
      (encodeFields l₁ ++ Tok.fieldBegin t fid ::
        (enc ++ (encodeFields l₂ ++ Tok.fieldStop :: rest))) =
    CurveKeyPair.readGeneric x
      (encodeFields l₁ ++ (encodeFields l₂ ++ Tok.fieldStop :: rest)) := by
  have h := loop_insert_skipped CurveKeyPair.readField ckpStepWf ht
    (fun x f rst hf => ckpReadField_unknown hfid1 hfid2 hwf x f rst hf)
    l₁ l₂ hl₁ hl₂ x rest
    ((encodeFields l₁ ++ Tok.fieldBegin t fid ::
      (enc ++ (encodeFields l₂ ++ Tok.fieldStop :: rest))).length + 1)
    ((encodeFields l₁ ++ (encodeFields l₂ ++ Tok.fieldStop :: rest)).length + 1)
    (by simp [List.length_append, List.length_cons]; omega)
    (by simp [List.length_append, List.length_cons]; omega)
  simp only [CurveKeyPair.readGeneric, CurveKeyPair.readGenericFuel]
  rw [h]

/-- The generic `CurveKeyPair` read decodes its own writer's output
from a fresh instance back to the original instance. -/
theorem ckpReadGeneric_write (x : CurveKeyPair) (rest : List Tok) :
    CurveKeyPair.readGeneric ⟨none, none⟩ (x.writeTokens ++ rest) =
      .ok (x, rest) := by
  obtain ⟨pk, pub⟩ := x
  cases pk <;> cases pub <;> rfl

/-- The generic `KnownKeys` read decodes its own writer's output from a
fresh instance back to the folded dict. -/
theorem kkReadGeneric_write (d : List (String × String)) (rest : List Tok) :
    KnownKeys.readGeneric { keys := none }
      ((KnownKeys.writeTokens { keys := some d }) ++ rest) =
      .ok ({ keys := some (dfold d) }, rest) := by
  have := kkReadGeneric_mapCounted d { keys := none } rest
  simpa [KnownKeys.writeTokens, List.cons_append, List.append_assoc] using this

/-- Looking up a key of a stored pair in a dict with pairwise distinct
keys finds the stored value. -/
theorem dictLookup_eq_some_of_mem :
    ∀ {d : List (String × String)} {k v : String},
      (d.map Prod.fst).Nodup → (k, v) ∈ d → dictLookup d k = some v := by
  intro d
  induction d with
  | nil => intro k v _ h; cases h
  | cons p d ih =>
    intro k v hnd hm
    obtain ⟨k', v'⟩ := p
    simp only [List.map_cons, List.nodup_cons, List.mem_map] at hnd
    rcases List.mem_cons.mp hm with heq | hm'
    · injection heq with h1 h2
      subst h1
      subst h2
      simp [dictLookup]
    · by_cases hkk : k' = k
      · subst hkk
        exact absurd ⟨(k', v), hm', rfl⟩ hnd.1
      · have hb : (k' == k) = false := by simpa using hkk
        simp only [dictLookup, hb, Bool.false_eq_true, if_false]
        exact ih hnd.2 hm'

/-- A successful dict lookup comes from a stored pair. -/
theorem mem_of_dictLookup :
    ∀ {d : List (String × String)} {k v : String},
      dictLookup d k = some v → (k, v) ∈ d := by
  intro d
  induction d with
  | nil => intro k v h; cases h
  | cons p d ih =>
    intro k v h
    obtain ⟨k', v'⟩ := p
    simp only [dictLookup] at h
    by_cases hkk : k' = k
    · subst hkk
      rw [if_pos (by simp : (k' == k') = true)] at h
      injection h with h'
      subst h'
      exact List.mem_cons_self _ _
    · have hb : (k' == k) = false := by simpa using hkk
      rw [hb] at h
      simp only [Bool.false_eq_true, if_false] at h
      exact List.mem_cons_of_mem _ (ih h)

/-- Python dict equality coincides with extensional equality of lookups
on dicts with pairwise distinct keys. -/
theorem dictEqv_iff {d₁ d₂ : List (String × String)}
    (h₁ : (d₁.map Prod.fst).Nodup) (h₂ : (d₂.map Prod.fst).Nodup) :
    dictEqv d₁ d₂ = true ↔ ∀ k, dictLookup d₁ k = dictLookup d₂ k := by
  rw [dictEqv, Bool.and_eq_true, List.all_eq_true, List.all_eq_true]
  constructor
  · rintro ⟨ha, hb⟩ k
    cases hl : dictLookup d₁ k with
    | some v =>
      have hv := ha (k, v) (mem_of_dictLookup hl)
      simp only [beq_iff_eq] at hv
      exact hv.symm
    | none =>
      cases hl2 : dictLookup d₂ k with
      | none => rfl
      | some v =>
        have hv := hb (k, v) (mem_of_dictLookup hl2)
        simp only [beq_iff_eq] at hv
        simp [hl] at hv
  · intro h
    constructor
    · intro p hp
      simp only [beq_iff_eq]
      rw [← h p.1]
      exact dictLookup_eq_some_of_mem h₁ (by simpa using hp)
    · intro p hp
      simp only [beq_iff_eq]
      rw [h p.1]
      exact dictLookup_eq_some_of_mem h₂ (by simpa using hp)

/-- Python dict equality is reflexive on dicts with pairwise distinct
keys. -/
theorem dictEqv_refl {d : List (String × String)}
    (h : (d.map Prod.fst).Nodup) : dictEqv d d = true :=
  (dictEqv_iff h h).mpr (fun _ => rfl)

/-- The emitted pairs contain no STOP marker. -/
theorem writePairs_count_fieldStop (d : List (String × String)) :
    (writePairs d).count Tok.fieldStop = 0 := by
  induction d with
  | nil => rfl
  | cons p d ih =>
    obtain ⟨k, v⟩ := p
    simp [writePairs, List.count_cons, ih]

/-- Claim C1: for every `KnownKeys` instance whose required `keys`
field is set (a dict, so its keys are pairwise distinct), and for every
`CurveKeyPair` instance, writing with the generic writer and reading
the produced stream back with the generic reader from a fresh instance
yields an instance equal, by the structs' own equality, to the
original. -/
theorem c1_roundtrip_generic :
    (∀ (d : List (String × String)) (rest : List Tok),
      (d.map Prod.fst).Nodup →
      ∃ y : KnownKeys,
        KnownKeys.readGeneric { keys := none }
          (KnownKeys.writeTokens { keys := some d } ++ rest) = .ok (y, rest) ∧
        KnownKeys.eqv y { keys := some d } = true) ∧
    (∀ (x : CurveKeyPair) (rest : List Tok),
      ∃ y : CurveKeyPair,
        CurveKeyPair.readGeneric ⟨none, none⟩ (x.writeTokens ++ rest) =
          .ok (y, rest) ∧
        CurveKeyPair.eqv y x = true) := by
  constructor
  · intro d rest hnd
    refine ⟨{ keys := some d }, ?_, ?_⟩
    · have h := kkReadGeneric_write d rest
      rw [dfold_eq_self hnd] at h
      exact h
    · show dictEqv d d = true
      exact dictEqv_refl hnd
  · intro x rest
    exact ⟨x, ckpReadGeneric_write x rest, by simp [CurveKeyPair.eqv]⟩

/-- Witness for C1 at the dict holding the single pair (k, v). -/
theorem c1_roundtrip_generic_witness :
    (([("k", "v")].map Prod.fst).Nodup) ∧
    (∃ y : KnownKeys,
      KnownKeys.readGeneric { keys := none }
        (KnownKeys.writeTokens { keys := some [("k", "v")] } ++ []) =
        .ok (y, []) ∧
      KnownKeys.eqv y { keys := some [("k", "v")] } = true) :=
  ⟨by simp, c1_roundtrip_generic.1 [("k", "v")] [] (by simp)⟩

/-- Claim C2: a `KnownKeys` stream with no entry for field id 1 fails
decode with MissingRequiredField naming field `keys` and struct
`KnownKeys`, while a `CurveKeyPair` stream with either or both optional
fields omitted decodes successfully, leaving the omitted slots
unset. -/
theorem c2_required_field_enforcement :
    (∀ (l : List FieldEntry) (rest : List Tok), WfEntries l →
      (∀ e ∈ l, e.fid ≠ 1) →
      KnownKeys.readGeneric { keys := none }
        (encodeFields l ++ Tok.fieldStop :: rest) =
        .error (.missingRequiredField "keys" "KnownKeys")) ∧
    (∀ rest : List Tok,
      CurveKeyPair.readGeneric ⟨none, none⟩ (Tok.fieldStop :: rest) =
        .ok (⟨none, none⟩, rest)) ∧
    (∀ (s : String) (rest : List Tok),
      CurveKeyPair.readGeneric ⟨none, none⟩
        (Tok.fieldBegin .string 1 :: Tok.str s :: Tok.fieldStop :: rest) =
        .ok (⟨some s, none⟩, rest)) ∧
    (∀ (s : String) (rest : List Tok),
      CurveKeyPair.readGeneric ⟨none, none⟩
        (Tok.fieldBegin .string 2 :: Tok.str s :: Tok.fieldStop :: rest) =
        .ok (⟨none, some s⟩, rest)) := by
  refine ⟨fun l rest hl hfid => kkReadGeneric_noField1 l hl hfid rest,
    fun rest => rfl, fun s rest => rfl, fun s rest => rfl⟩

/-- Witness for C2 at a stream holding one skipped i32 entry with field
id 3. -/
theorem c2_required_field_enforcement_witness :
    KnownKeys.readGeneric { keys := none }
      (encodeFields [⟨TType.i32, 3, [Tok.i32 9]⟩] ++ Tok.fieldStop :: []) =
      .error (.missingRequiredField "keys" "KnownKeys") :=
  c2_required_field_enforcement.1 [⟨TType.i32, 3, [Tok.i32 9]⟩] []
    (by
      intro e he
      rw [List.mem_singleton] at he
      subst he
      exact ⟨Wf.wi32, by decide⟩)
    (by
      intro e he
      rw [List.mem_singleton] at he
      subst he
      decide)

/-- Claim C3: decoding a `KnownKeys` map payload with a non-negative
declared count equal to the number of pairs gives the same result as
decoding the same pairs with a negative declared count terminated by
the peek-for-more signal. -/
theorem c3_map_termination_equivalence (kvs : List (String × String))
    (c : Int) (x : KnownKeys) (rest : List Tok) (hc : c < 0) :
    KnownKeys.readGeneric x
      (Tok.fieldBegin .map 1 ::
        (Tok.mapBegin .string .string (kvs.length : Int) ::
          (writePairs kvs ++ Tok.mapEnd :: Tok.fieldStop :: rest))) =
    KnownKeys.readGeneric x
      (Tok.fieldBegin .map 1 ::
        (Tok.mapBegin .string .string c ::
          (writePairs kvs ++ Tok.mapEnd :: Tok.fieldStop :: rest))) := by
  rw [kkReadGeneric_mapCounted, kkReadGeneric_mapPeek kvs c hc]

/-- Witness for C3 at one pair and declared count -1. -/
theorem c3_map_termination_equivalence_witness :
    ((-1 : Int) < 0) ∧
    KnownKeys.readGeneric { keys := none }
      (Tok.fieldBegin .map 1 ::
        (Tok.mapBegin .string .string (([("a", "b")].length : Nat) : Int) ::
          (writePairs [("a", "b")] ++ Tok.mapEnd :: Tok.fieldStop :: []))) =
    KnownKeys.readGeneric { keys := none }
      (Tok.fieldBegin .map 1 ::
        (Tok.mapBegin .string .string (-1) ::
          (writePairs [("a", "b")] ++ Tok.mapEnd :: Tok.fieldStop :: []))) :=
  ⟨by decide,
    c3_map_termination_equivalence [("a", "b")] (-1) { keys := none } []
      (by decide)⟩

/-- Claim C4: inserting one extra wellformed field entry with a field
id unknown to the schema (any value wire type and payload, including
nested containers) anywhere before the STOP marker of a wellformed
struct stream neither makes the generic read fail nor changes the
decoded instance, for both structs. -/
theorem c4_unknown_field_skipped :
    (∀ (l₁ l₂ : List FieldEntry) (t : TType) (fid : Int) (enc : List Tok)
        (x : KnownKeys) (rest : List Tok),
      WfEntries l₁ → WfEntries l₂ → Wf (.one t) enc → t ≠ TType.stop →
      fid ≠ 1 →
      KnownKeys.readGeneric x
        (encodeFields l₁ ++ Tok.fieldBegin t fid ::
          (enc ++ (encodeFields l₂ ++ Tok.fieldStop :: rest))) =
      KnownKeys.readGeneric x
        (encodeFields l₁ ++ (encodeFields l₂ ++ Tok.fieldStop :: rest))) ∧
    (∀ (l₁ l₂ : List FieldEntry) (t : TType) (fid : Int) (enc : List Tok)
        (x : CurveKeyPair) (rest : List Tok),
      WfEntries l₁ → WfEntries l₂ → Wf (.one t) enc → t ≠ TType.stop →
      fid ≠ 1 → fid ≠ 2 →
      CurveKeyPair.readGeneric x
        (encodeFields l₁ ++ Tok.fieldBegin t fid ::
          (enc ++ (encodeFields l₂ ++ Tok.fieldStop :: rest))) =
      CurveKeyPair.readGeneric x
        (encodeFields l₁ ++ (encodeFields l₂ ++ Tok.fieldStop :: rest))) :=
  ⟨fun l₁ l₂ t fid enc x rest h1 h2 hw ht hf =>
      kkReadGeneric_insert l₁ l₂ h1 h2 hw ht hf x rest,
   fun l₁ l₂ t fid enc x rest h1 h2 hw ht hf1 hf2 =>
      ckpReadGeneric_insert l₁ l₂ h1 h2 hw ht hf1 hf2 x rest⟩

/-- Witness for C4: inserting an i32 entry with unknown field id 5 into
the empty streams of both structs. -/
theorem c4_unknown_field_skipped_witness :
    (KnownKeys.readGeneric { keys := none }
      (encodeFields [] ++ Tok.fieldBegin TType.i32 5 ::
        ([Tok.i32 7] ++ (encodeFields [] ++ Tok.fieldStop :: []))) =
    KnownKeys.readGeneric { keys := none }
      (encodeFields [] ++ (encodeFields [] ++ Tok.fieldStop :: []))) ∧
    (CurveKeyPair.readGeneric ⟨none, none⟩
      (encodeFields [] ++ Tok.fieldBegin TType.i32 5 ::
        ([Tok.i32 7] ++ (encodeFields [] ++ Tok.fieldStop :: []))) =
    CurveKeyPair.readGeneric ⟨none, none⟩
      (encodeFields [] ++ (encodeFields [] ++ Tok.fieldStop :: []))) :=
  ⟨c4_unknown_field_skipped.1 [] [] TType.i32 5 [Tok.i32 7] { keys := none } []
      (by intro e he; cases he) (by intro e he; cases he) Wf.wi32
      (by decide) (by decide),
   c4_unknown_field_skipped.2 [] [] TType.i32 5 [Tok.i32 7] ⟨none, none⟩ []
      (by intro e he; cases he) (by intro e he; cases he) Wf.wi32
      (by decide) (by decide) (by decide)⟩

/-- Claim C5: a field header carrying a known field id but a wire type
different from the schema's declared type for that id makes the reader
skip the value using the stream's wire type, leaving the instance's
field slots unchanged and raising no error. -/
theorem c5_type_mismatch_skipped :
    (∀ (t : TType) (enc : List Tok) (x : KnownKeys) (f : Nat)
        (rst : List Tok),
      t ≠ TType.map → t ≠ TType.stop → Wf (.one t) enc → enc.length < f →
      KnownKeys.readField x t 1 f (enc ++ rst) = .ok (x, rst)) ∧
    (∀ (t : TType) (enc : List Tok) (x : CurveKeyPair) (fid : Int) (f : Nat)
        (rst : List Tok),
      t ≠ TType.string → t ≠ TType.stop → (fid = 1 ∨ fid = 2) →
      Wf (.one t) enc → enc.length < f →
      CurveKeyPair.readField x t fid f (enc ++ rst) = .ok (x, rst)) :=
  ⟨fun t enc x f rst htm _ hw hf => kkReadField_mismatch htm hw x f rst hf,
   fun t enc x fid f rst hts _ hfid hw hf =>
      ckpReadField_mismatch hts hw hfid x f rst hf⟩

/-- Witness for C5: an i32 payload under field ids 1 of both structs. -/
theorem c5_type_mismatch_skipped_witness :
    (KnownKeys.readField { keys := none } TType.i32 1 2 ([Tok.i32 7] ++ []) =
      .ok ({ keys := none }, [])) ∧
    (CurveKeyPair.readField ⟨none, none⟩ TType.i32 1 2 ([Tok.i32 7] ++ []) =
      .ok (⟨none, none⟩, [])) :=
  ⟨c5_type_mismatch_skipped.1 TType.i32 [Tok.i32 7] { keys := none } 2 []
      (by decide) (by decide) Wf.wi32 (by decide),
   c5_type_mismatch_skipped.2 TType.i32 [Tok.i32 7] ⟨none, none⟩ 1 2 []
      (by decide) (by decide) (Or.inl rfl) Wf.wi32 (by decide)⟩

/-- Counterexample to claim C6 as stated: on the write side the
dispatcher delegates to the specialized implementation even though the
transport does not expose the direct-buffer capability (the generated
`write` never consults the transport), unlike the read side. -/
theorem c6_write_no_transport_check_counterexample :
    writeUsesFastBinary ⟨true, true⟩ ⟨ProtoKind.binaryAccelerated, false⟩ = true ∧
    (⟨ProtoKind.binaryAccelerated, false⟩ : Protocol).transCReadable = false ∧
    readUsesFastBinary ⟨true, true⟩ ⟨ProtoKind.binaryAccelerated, false⟩ = false := by
  decide

/-- Claim C6 as amended: the read dispatcher delegates exactly when the
protocol is acceleratable (accelerated binary, accelerated compact, or
a header protocol declaring one of those two) AND the transport exposes
the direct-buffer capability AND thrift_spec and fastproto are
available; the write dispatcher does not consult the transport: it
delegates exactly when the protocol is acceleratable AND thrift_spec
and fastproto are available. -/
theorem c6_dispatch_conditions_amended :
    (∀ (env : Env) (p : Protocol),
      (readUsesFastBinary env p = true ∨ readUsesFastCompact env p = true) ↔
        ((acceleratesBinary p = true ∨ acceleratesCompact p = true) ∧
          p.transCReadable = true ∧ env.thriftSpecRegistered = true ∧
          env.fastprotoAvailable = true)) ∧
    (∀ (env : Env) (p : Protocol),
      (writeUsesFastBinary env p = true ∨ writeUsesFastCompact env p = true) ↔
        ((acceleratesBinary p = true ∨ acceleratesCompact p = true) ∧
          env.thriftSpecRegistered = true ∧ env.fastprotoAvailable = true)) := by
  constructor <;> intro env p <;>
    simp only [readUsesFastBinary, readUsesFastCompact, writeUsesFastBinary,
      writeUsesFastCompact, Bool.and_eq_true] <;>
    tauto

/-- Claim C7: the generic writer emits exactly the set fields, each as
a field header followed by its encoded value, in declared field-id
order, never emits an unset optional field, and terminates the struct
with a single STOP marker which is the last token. -/
theorem c7_writer_emission_order :
    (∀ a b : String, CurveKeyPair.writeTokens ⟨some a, some b⟩ =
      [Tok.fieldBegin .string 1, Tok.str a, Tok.fieldBegin .string 2,
        Tok.str b, Tok.fieldStop]) ∧
    (∀ a : String, CurveKeyPair.writeTokens ⟨some a, none⟩ =
      [Tok.fieldBegin .string 1, Tok.str a, Tok.fieldStop]) ∧
    (∀ b : String, CurveKeyPair.writeTokens ⟨none, some b⟩ =
      [Tok.fieldBegin .string 2, Tok.str b, Tok.fieldStop]) ∧
    (CurveKeyPair.writeTokens ⟨none, none⟩ = [Tok.fieldStop]) ∧
    (∀ d : List (String × String), KnownKeys.writeTokens { keys := some d } =
      Tok.fieldBegin .map 1 :: Tok.mapBegin .string .string (d.length : Int) ::
        (writePairs d ++ [Tok.mapEnd, Tok.fieldStop])) ∧
    (KnownKeys.writeTokens { keys := none } = [Tok.fieldStop]) ∧
    (∀ x : CurveKeyPair, (CurveKeyPair.writeTokens x).count Tok.fieldStop = 1 ∧
      (CurveKeyPair.writeTokens x).getLast? = some Tok.fieldStop) ∧
    (∀ x : KnownKeys, (KnownKeys.writeTokens x).count Tok.fieldStop = 1 ∧
      (KnownKeys.writeTokens x).getLast? = some Tok.fieldStop) := by
  refine ⟨fun a b => rfl, fun a => rfl, fun b => rfl, rfl, fun d => ?_, rfl,
    fun x => ?_, fun x => ?_⟩
  · simp [KnownKeys.writeTokens, List.cons_append, List.append_assoc]
  · obtain ⟨pk, pub⟩ := x
    cases pk <;> cases pub <;>
      exact ⟨by simp [CurveKeyPair.writeTokens, List.count_cons], rfl⟩
  · obtain ⟨k⟩ := x
    cases k with
    | none => exact ⟨rfl, rfl⟩
    | some d =>
      constructor
      · simp [KnownKeys.writeTokens, List.count_append, List.count_cons,
          writePairs_count_fieldStop]
      · show ((([Tok.fieldBegin .map 1,
            Tok.mapBegin .string .string (d.length : Int)] ++
            writePairs d ++ [Tok.mapEnd]) ++ [Tok.fieldStop]).getLast? =
          some Tok.fieldStop)
        rw [List.getLast?_concat]

/-- Claim C8: instances of the same struct type are equal exactly when
every field slot is pairwise equal, counting unset as a value; in
particular a `CurveKeyPair` decoded with only `privateKey` set equals a
freshly constructed instance with the same `privateKey` and `publicKey`
unset. -/
theorem c8_structural_equality :
    (∀ a b : CurveKeyPair, CurveKeyPair.eqv a b = true ↔
      (a.privateKey = b.privateKey ∧ a.publicKey = b.publicKey)) ∧
    (∀ d₁ d₂ : List (String × String), (d₁.map Prod.fst).Nodup →
      (d₂.map Prod.fst).Nodup →
      (KnownKeys.eqv { keys := some d₁ } { keys := some d₂ } = true ↔
        ∀ k, dictLookup d₁ k = dictLookup d₂ k)) ∧
    (KnownKeys.eqv { keys := none } { keys := none } = true) ∧
    (∀ d : List (String × String),
      KnownKeys.eqv { keys := some d } { keys := none } = false ∧
      KnownKeys.eqv { keys := none } { keys := some d } = false) ∧
    (∀ (s : String) (rest : List Tok),
      CurveKeyPair.readGeneric ⟨none, none⟩
        (Tok.fieldBegin .string 1 :: Tok.str s :: Tok.fieldStop :: rest) =
        .ok (⟨some s, none⟩, rest) ∧
      CurveKeyPair.eqv ⟨some s, none⟩ ⟨some s, none⟩ = true) := by
  refine ⟨?_, ?_, rfl, fun d => ⟨rfl, rfl⟩,
    fun s rest => ⟨rfl, by simp [CurveKeyPair.eqv]⟩⟩
  · intro a b
    simp [CurveKeyPair.eqv]
  · intro d₁ d₂ h₁ h₂
    show dictEqv d₁ d₂ = true ↔ _
    exact dictEqv_iff h₁ h₂

/-- Witness for C8 at the singleton dict (a, b). -/
theorem c8_structural_equality_witness :
    (([("a", "b")].map Prod.fst).Nodup) ∧
    (KnownKeys.eqv { keys := some [("a", "b")] } { keys := some [("a", "b")] } =
        true ↔
      ∀ k, dictLookup [("a", "b")] k = dictLookup [("a", "b")] k) :=
  ⟨by simp, c8_structural_equality.2.1 [("a", "b")] [("a", "b")]
    (by simp) (by simp)⟩

/-- Claim C9: writing a struct instance leaves its field slots
unchanged, and writing the same instance twice in succession appends
the same token sequence twice. -/
theorem c9_write_frame :
    (∀ (x : KnownKeys) (sink : List Tok),
      (KnownKeys.write x sink).1 = x ∧
      (KnownKeys.write x (KnownKeys.write x sink).2).2 =
        sink ++ KnownKeys.writeTokens x ++ KnownKeys.writeTokens x) ∧
    (∀ (x : CurveKeyPair) (sink : List Tok),
      (CurveKeyPair.write x sink).1 = x ∧
      (CurveKeyPair.write x (CurveKeyPair.write x sink).2).2 =
        sink ++ CurveKeyPair.writeTokens x ++ CurveKeyPair.writeTokens x) := by
  constructor <;> intro x sink <;>
    exact ⟨rfl, by
      simp [KnownKeys.write, CurveKeyPair.write, List.append_assoc]⟩

/-- Claim C10: every successful return path of `KnownKeys.read` — the
accelerated binary path, the accelerated compact path, and the generic
field loop — runs `checkRequired` before returning, so no read path
returns an instance whose required `keys` slot is unset. -/
theorem c10_all_read_paths_check_required (fp : FastProto) (env : Env)
    (p : Protocol) (x : KnownKeys) (s : List Tok) (x' : KnownKeys)
    (s' : List Tok) (h : KnownKeys.read fp env p x s = .ok (x', s')) :
    x'.keys ≠ none := by
  have check_of : ∀ (y : KnownKeys) (u : Unit),
      y.checkRequired = .ok u → y.keys ≠ none := by
    intro y u hch hk
    rw [KnownKeys.checkRequired, if_pos hk] at hch
    cases hch
  rw [KnownKeys.read] at h
  by_cases h1 : readUsesFastBinary env p = true
  · rw [if_pos h1] at h
    cases hch : (fp.decodeBinaryKK x s).1.checkRequired with
    | ok u =>
      rw [hch] at h
      injection h with h2
      injection h2 with ha hb
      subst ha
      exact check_of _ u hch
    | error e =>
      rw [hch] at h
      cases h
  · rw [if_neg h1] at h
    by_cases h2 : readUsesFastCompact env p = true
    · rw [if_pos h2] at h
      cases hch : (fp.decodeCompactKK x s).1.checkRequired with
      | ok u =>
        rw [hch] at h
        injection h with h3
        injection h3 with ha hb
        subst ha
        exact check_of _ u hch
      | error e =>
        rw [hch] at h
        cases h
    · rw [if_neg h2] at h
      rw [KnownKeys.readGeneric, KnownKeys.readGenericFuel] at h
      cases hlp : readStructGo KnownKeys.readField (s.length + 1) x s with
      | ok r =>
        obtain ⟨y, s₂⟩ := r
        rw [hlp] at h
        have h' : (match y.checkRequired with
            | .ok _ => (Except.ok (y, s₂) : Except Err (KnownKeys × List Tok))
            | .error e => .error e) = .ok (x', s') := h
        cases hch : y.checkRequired with
        | ok u =>
          rw [hch] at h'
          injection h' with h3
          injection h3 with ha hb
          subst ha
          exact check_of y u hch
        | error e =>
          rw [hch] at h'
          cases h'
      | error e =>
        rw [hlp] at h
        cases h

/-- Witness for C10 at a generic-path read of an empty counted map. -/
theorem c10_all_read_paths_check_required_witness :
    (KnownKeys.read ⟨fun x s => (x, s), fun x s => (x, s)⟩ ⟨false, false⟩
      ⟨ProtoKind.other, false⟩ { keys := none }
      [Tok.fieldBegin .map 1, Tok.mapBegin .string .string 0, Tok.mapEnd,
        Tok.fieldStop] =
      .ok ({ keys := some [] }, [])) ∧
    ({ keys := some [] } : KnownKeys).keys ≠ none :=
  ⟨rfl,
    c10_all_read_paths_check_required ⟨fun x s => (x, s), fun x s => (x, s)⟩
      ⟨false, false⟩ ⟨ProtoKind.other, false⟩ { keys := none }
      [Tok.fieldBegin .map 1, Tok.mapBegin .string .string 0, Tok.mapEnd,
        Tok.fieldStop] { keys := some [] } [] rfl⟩

end OpenrKK
